import Mathlib

/-!
Verification of the sessionizer core (crates/sessionizer): the tmux wrapper
layer (`tmux.rs`), the session registry operations (`sessions.rs`) and the
directory discovery engine (`directories.rs`), shallowly embedded as pure
Lean functions.  External collaborators (the tmux server, the fzf picker,
the filesystem, the regex crate and the walkdir crate) are modelled as
explicit state values or function parameters; each embedded operation
returns an `Except` value mirroring the Rust `Result`, together with the
in-memory registry, the value written by `Config::save` (if any) and the
`println!` messages the operation emits.
-/

namespace Sessionizer

/-- Embeds `session.replace('.', "·")` from `tmux.rs` (a per-character
substitution: the pattern is the single char `'.'` and the replacement the
single char `'·'`). -/
def sanitize (s : String) : String :=
  String.mk (s.data.map (fun c => if c = '.' then '·' else c))

/-- Embeds Rust `str::trim` (strip leading and trailing whitespace). -/
def trimStr (s : String) : String :=
  String.mk (((s.data.dropWhile Char.isWhitespace).reverse.dropWhile
    Char.isWhitespace).reverse)

/-- A live tmux session: the server-side name (`tmux new-session -s name`)
and the working directory (`-c cwd`). -/
structure TmuxSession where
  name : String
  cwd : String
deriving DecidableEq, Repr

/-- The state of the external tmux server as the wrappers in `tmux.rs`
observe it: the live sessions in server order, whether a server/client is
active (`tmux info`), the raw string the `current_session` wrapper returns
(`tmux display-message -p`) and the session currently in the foreground
of the user's terminal (set by `switch-client` / `attach`). -/
structure Tmux where
  sessions : List TmuxSession
  active : Bool
  currentRaw : String
  foreground : Option String
deriving DecidableEq, Repr

/-- The live session names, in server order. -/
def names (t : Tmux) : List String := t.sessions.map (fun e => e.name)

/-- Embeds `tmux::ls`: each reported line's name (the substring before the
first `:`) is the stored session name; no un-substitution happens. -/
def ls (t : Tmux) : List String := names t

/-- Embeds `tmux::has_session`: the queried name is sanitized
(`'.'` → `'·'`) and matched exactly (`has-session -t =name`). -/
def hasSession (t : Tmux) (s : String) : Bool :=
  decide (sanitize s ∈ names t)

/-- Embeds `tmux::new_session`: `tmux new-session -s name -c session -d`
where `name` is the sanitized session id and the working directory keeps
the original id.  The session is created detached (no foreground change). -/
def newSession (t : Tmux) (s : String) : Tmux :=
  { t with sessions := t.sessions ++ [⟨sanitize s, s⟩] }

/-- Embeds `tmux::kill_session`: `tmux kill-session -t session`.  The name
is passed through verbatim (no sanitization in this wrapper). -/
def killSession (t : Tmux) (s : String) : Tmux :=
  { t with sessions := t.sessions.filter (fun e => decide (e.name ≠ s)) }

/-- Embeds `tmux::current_session`: the raw stdout of
`tmux display-message -p`, as the wrapper returns it. -/
def currentSession (t : Tmux) : String := t.currentRaw

/-- Embeds `tmux::switch_client`: the target is sanitized; the session
becomes the foreground one. -/
def switchClient (t : Tmux) (s : String) : Tmux :=
  { t with foreground := some (sanitize s) }

/-- Embeds `tmux::attach`: the target is sanitized (`attach -t =name`);
the session becomes the foreground one. -/
def attach (t : Tmux) (s : String) : Tmux :=
  { t with foreground := some (sanitize s) }

/-- Embeds `sessions::set`: create the session if absent, then
`switch_client` if a server is active, otherwise `attach`. -/
def set (t : Tmux) (s : String) : Tmux :=
  let t1 := if hasSession t s then t else newSession t s
  if t1.active then switchClient t1 s else attach t1 s

/-- The error outcomes of the registry operations (Rust `Err` values,
which main surfaces as a non-zero process exit). -/
inductive SessionsErr where
  /-- `bail!("the session does not exists as a directory in the fs")`. -/
  | notADirectory
  /-- `wrap_err("fail to get the last session")` on `last()` of an empty
  list in `sync_from_tmux` — the spec's `NoSessionsToSync`. -/
  | failGetLastSession
  /-- An external tmux/fzf process call failed (spawn failure or non-zero
  exit), propagated with `?`. -/
  | externalToolFailure
deriving DecidableEq, Repr

/-- The observable outcome of a successful registry operation: the tmux
state afterwards, the in-memory `config.sessions` when the function
returns, the list written by `Config::save` (`none` when the operation
returned without saving) and the `println!` messages shown to the user.
An `Except.error` outcome aborts before `Config::save`, so an error never
persists anything. -/
structure OpResult where
  tmux : Tmux
  sessions : List String
  saved : Option (List String)
  messages : List String
deriving DecidableEq, Repr

/-- The shared tail of `sessions::go` once a session string is chosen
(explicit argument or picker output): trim, bail unless the path exists,
soft-return unless it is registered, otherwise `set` it and move it to the
end of the history.  `fs` is the set of paths existing on the filesystem. -/
def goRun (fs : List String) (t : Tmux) (cfg : List String) (s0 : String) :
    Except SessionsErr OpResult :=
  let s := trimStr s0
  if s ∈ fs then
    if s ∈ cfg then
      let sessions' := cfg.filter (fun x => decide (x ≠ s)) ++ [s]
      .ok ⟨set t s, sessions', some sessions', []⟩
    else
      .ok ⟨t, cfg, none, ["Session not found in the history."]⟩
  else
    .error .notADirectory

/-- Embeds `sessions::go`.  `picked` is the line the fzf picker would
return when no explicit session is given. -/
def goOp (fs : List String) (t : Tmux) (cfg : List String)
    (arg : Option String) (picked : String) : Except SessionsErr OpResult :=
  match arg with
  | none =>
    if cfg.isEmpty then .ok ⟨t, cfg, none, ["No sessions in the history."]⟩
    else goRun fs t cfg picked
  | some s => goRun fs t cfg s

/-- The shared tail of `sessions::new`: trim, bail unless the path exists,
then `set` it and move it to the end of the history (no membership
check, unlike `go`). -/
def newRun (fs : List String) (t : Tmux) (cfg : List String) (s0 : String) :
    Except SessionsErr OpResult :=
  let s := trimStr s0
  if s ∈ fs then
    let sessions' := cfg.filter (fun x => decide (x ≠ s)) ++ [s]
    .ok ⟨set t s, sessions', some sessions', []⟩
  else
    .error .notADirectory

/-- Embeds `sessions::new`.  `picked` is the line the fzf directory picker
would return when no explicit session is given. -/
def newOp (fs : List String) (t : Tmux) (cfg : List String)
    (arg : Option String) (picked : String) : Except SessionsErr OpResult :=
  match arg with
  | none =>
    if cfg.isEmpty then .ok ⟨t, cfg, none, ["No sessions in the history."]⟩
    else newRun fs t cfg picked
  | some s => newRun fs t cfg s

/-- Embeds `sessions::add`: soft no-op when already registered, otherwise
`tmux::new_session`, append, save, and optionally `set`. -/
def addOp (t : Tmux) (cfg : List String) (s : String) (alsoSet : Bool) :
    Except SessionsErr OpResult :=
  if s ∈ cfg then
    .ok ⟨t, cfg, none, ["Session already exists in the history."]⟩
  else
    let t1 := newSession t s
    let sessions' := cfg ++ [s]
    let t2 := if alsoSet then set t1 s else t1
    .ok ⟨t2, sessions', some sessions',
      ["Session " ++ s ++ " added to the history."]⟩

/-- Embeds `sessions::remove`: soft no-op when the argument equals the
string `tmux::current_session` returns, otherwise drop it from the history
and save.  No tmux call other than the current-session query is made (in
particular no `kill-session`), so the returned tmux state is the input. -/
def removeOp (t : Tmux) (cfg : List String) (s : String) :
    Except SessionsErr OpResult :=
  if currentSession t = s then
    .ok ⟨t, cfg, none, ["Cannot remove the current session."]⟩
  else
    let sessions' := cfg.filter (fun x => decide (x ≠ s))
    .ok ⟨t, sessions', some sessions', []⟩

/-- Embeds `sessions::next`: guard the empty and singleton histories, pop
the last (most recent) session; with `--show` report it and return before
saving, otherwise `set` it, reinsert it at the front and save.  The final
`match` arm mirrors the Rust `else` branch of `if let Some` (unreachable
behind the length guards) which prints and falls through to the save. -/
def nextOp (t : Tmux) (cfg : List String) (showOnly : Bool) :
    Except SessionsErr OpResult :=
  if cfg.isEmpty then
    .ok ⟨t, cfg, none, ["No more sessions in the history."]⟩
  else if cfg.length = 1 then
    .ok ⟨t, cfg, none, ["Only one session in the history."]⟩
  else
    match cfg.getLast? with
    | some session =>
      if showOnly then
        .ok ⟨t, cfg.dropLast, none, ["Next session: " ++ session]⟩
      else
        let sessions' := session :: cfg.dropLast
        .ok ⟨set t session, sessions', some sessions', []⟩
    | none => .ok ⟨t, cfg, some cfg, ["No more sessions in the history."]⟩

/-- Embeds `sessions::previous`: guard the empty and singleton histories,
remove the first (oldest) session; with `--show` report it and return
before saving, otherwise `set` it, append it to the end and save.  The
`[]` arm is unreachable behind the guards (Rust `remove(0)` would panic
there). -/
def prevOp (t : Tmux) (cfg : List String) (showOnly : Bool) :
    Except SessionsErr OpResult :=
  if cfg.isEmpty then
    .ok ⟨t, cfg, none, ["No more sessions in the history."]⟩
  else if cfg.length = 1 then
    .ok ⟨t, cfg, none, ["Only one session in the history."]⟩
  else
    match cfg with
    | [] => .ok ⟨t, cfg, none, []⟩
    | session :: rest =>
      if showOnly then
        .ok ⟨t, rest, none, ["Previous session: " ++ session]⟩
      else
        .ok ⟨set t session, rest ++ [session],
          some (rest ++ [session]), []⟩

/-- The first loop of `sessions::sync_to_tmux`: for every name in the
`tmux ls` snapshot that the registry does not contain, `kill-session`. -/
def killPhase (t : Tmux) (cfg : List String) : Tmux :=
  (ls t).foldl (fun acc s => if s ∈ cfg then acc else killSession acc s) t

/-- The second loop of `sessions::sync_to_tmux`: for every registry entry
without a live session (`has_session`), `new_session` (never `set`). -/
def createPhase (t : Tmux) (cfg : List String) : Tmux :=
  cfg.foldl (fun acc s => if hasSession acc s then acc else newSession acc s) t

/-- Embeds `sessions::sync_to_tmux`: kill the unregistered live sessions,
create the registered-but-dead ones; the registry is neither modified nor
saved. -/
def syncToTmux (t : Tmux) (cfg : List String) : Except SessionsErr OpResult :=
  .ok ⟨createPhase (killPhase t cfg) cfg, cfg, none, []⟩

/-- Embeds `sessions::sync_from_tmux`: replace `config.sessions` by the
`tmux ls` list, take its last element (`?`-error on an empty list), `set`
it, then save.  `setOk` models whether the external tmux calls made by
`set` succeed; when they do not, the `?` propagates before `Config::save`
(the debug `println!` of the session list is not tracked in `messages`). -/
def syncFromTmux (t : Tmux) (cfg : List String) (setOk : Bool) :
    Except SessionsErr OpResult :=
  let tmuxSessions := ls t
  match tmuxSessions.getLast? with
  | none => .error .failGetLastSession
  | some last =>
    if setOk then
      .ok ⟨set t last, tmuxSessions, some tmuxSessions, []⟩
    else
      .error .externalToolFailure

/-- Embeds `sessions::sync`: dispatch on `--reverse`. -/
def syncOp (t : Tmux) (cfg : List String) (reverse : Bool) (setOk : Bool) :
    Except SessionsErr OpResult :=
  match reverse with
  | true => syncFromTmux t cfg setOk
  | false => syncToTmux t cfg

/-- Embeds `directories::Directory`: a tracked scan root.  The path is
kept as its list of components so that walk depth is well defined; the
pattern (`grep`) is optional exactly as in the Rust struct. -/
structure Directory where
  path : List String
  mindepth : Nat
  maxdepth : Nat
  grep : Option String
deriving DecidableEq, Repr

/-- One filesystem entry of the snapshot: its absolute path (components)
and whether it is a directory. -/
structure FsNode where
  path : List String
  isDir : Bool
deriving DecidableEq, Repr

/-- The full path string of an entry (`entry.path().to_string_lossy()`),
components joined by `/` with a leading `/`. -/
def renderPath (p : List String) : String :=
  p.foldl (fun acc c => acc ++ "/" ++ c) ""

/-- Whether `p` lies under the root path `root` (the root itself
included). -/
def underRoot (root p : List String) : Bool :=
  decide (p.take root.length = root)

/-- The depth of `p` below `root` (the root itself has depth 0). -/
def depthFrom (root p : List String) : Nat :=
  p.length - root.length

/-- Modelled from the spec: the walk of the external walkdir crate
(`WalkDir::new(path).min_depth(m).max_depth(M)`) visits the entries under
the root whose depth from the root lies in `[mindepth, maxdepth]`;
entries that error during the walk are skipped, which the snapshot models
by simply not containing them. -/
def walk (fs : List FsNode) (d : Directory) : List FsNode :=
  fs.filter (fun e =>
    underRoot d.path e.path
      && decide (d.mindepth ≤ depthFrom d.path e.path)
      && decide (depthFrom d.path e.path ≤ d.maxdepth))

/-- Modelled from the spec: the external regex crate, abstracted as a
compiler from pattern strings to matchers; `compile p = none` models
`Regex::new(p)` returning `Err` (the pattern does not compile). -/
structure RegexEngine where
  compile : String → Option (String → Bool)

/-- The failure outcomes of `directories::evaluate`. -/
inductive EvalErr where
  /-- `directory.grep.as_ref().unwrap()` panics: the root has no pattern. -/
  | panicNoneUnwrap
  /-- `Regex::new` failed on the given pattern (`?`-propagated). -/
  | invalidPattern (pattern : String)
deriving DecidableEq, Repr

/-- The per-root body of the loop in `directories::evaluate`: unwrap the
pattern (panic on `None`), compile it (error when it does not compile),
walk the root, keep the entries whose full path matches and which are
directories, and render their paths. -/
def evalRoot (eng : RegexEngine) (fs : List FsNode) (d : Directory) :
    Except EvalErr (List String) :=
  match d.grep with
  | none => .error .panicNoneUnwrap
  | some p =>
    match eng.compile p with
    | none => .error (.invalidPattern p)
    | some m =>
      .ok ((((walk fs d).filter (fun e => m (renderPath e.path))).filter
        (fun e => e.isDir)).map (fun e => renderPath e.path))

/-- The root loop of `directories::evaluate`: visit the roots in order,
appending each root's entries to the accumulator; a panic or a `?`-error
aborts the loop (and the whole evaluation) immediately. -/
def evalAll (eng : RegexEngine) (fs : List FsNode) :
    List Directory → List String → Except EvalErr (List String)
  | [], acc => .ok acc
  | d :: roots, acc =>
    match evalRoot eng fs d with
    | .error e => .error e
    | .ok xs => evalAll eng fs roots (acc ++ xs)

/-- Embeds `directories::evaluate`: accumulate the per-root results in
order, then deduplicate (the Rust `HashSet` round-trip) and sort
ascending (`directories.sort()`); after deduplication the elements are
distinct, so any sort yields the same list the Rust code produces. -/
def evaluate (eng : RegexEngine) (fs : List FsNode) (roots : List Directory) :
    Except EvalErr (List String) :=
  match evalAll eng fs roots [] with
  | .error e => .error e
  | .ok raw => .ok (List.insertionSort (· ≤ ·) raw.dedup)

/-- A tmux state with no sessions, no active server and an empty
current-session answer, used to instantiate theorems concretely. -/
def t0 : Tmux := ⟨[], false, "", none⟩

/-- A regex engine on which every pattern compiles to a match-everything
matcher, used to instantiate theorems concretely. -/
def trueEngine : RegexEngine := ⟨fun _ => some (fun _ => true)⟩

/-- A tmux state with a single live session `/a`, used to instantiate
theorems concretely. -/
def t1 : Tmux := ⟨[⟨"/a", "/a"⟩], false, "", none⟩

/-- A tmux state whose single live session was created from the dotted id
`/a.b` (live name `/a·b`, working directory `/a.b`), used to instantiate
theorems concretely. -/
def tDot : Tmux := ⟨[⟨"/a·b", "/a.b"⟩], false, "", none⟩

/-- A tmux state whose current-session wrapper answers `/c`, used to
instantiate theorems concretely. -/
def tCur : Tmux := ⟨[], false, "/c", none⟩

/-- The spec's scenario filesystem: `/proj/x` a directory, `/proj/y` a
file, `/proj/z/w` a directory at depth 2 below `/proj`. -/
def fsEx : List FsNode :=
  [⟨["proj", "x"], true⟩, ⟨["proj", "y"], false⟩, ⟨["proj", "z", "w"], true⟩]

/-- The spec's scenario root set: `/proj`, depths `[1,1]`, pattern `.*`. -/
def rootsEx : List Directory := [⟨["proj"], 1, 1, some ".*"⟩]

/-! ### Helper lemmas about the tmux model -/

theorem set_foreground (t : Tmux) (s : String) :
    (set t s).foreground = some (sanitize s) := by
  simp only [set]
  split <;> split <;> rfl

theorem names_newSession (t : Tmux) (s : String) :
    names (newSession t s) = names t ++ [sanitize s] := by
  simp [names, newSession]

theorem set_sessions_of_not_hasSession (t : Tmux) (s : String)
    (h : hasSession t s = false) :
    (set t s).sessions = t.sessions ++ [⟨sanitize s, s⟩] := by
  simp only [set, h, Bool.false_eq_true, if_false]
  split <;> rfl

theorem names_set_of_not_hasSession (t : Tmux) (s : String)
    (h : hasSession t s = false) :
    names (set t s) = names t ++ [sanitize s] := by
  simp [names, set_sessions_of_not_hasSession t s h]

theorem map_subst_ne_of_dot :
    ∀ l : List Char, '.' ∈ l →
      l.map (fun c => if c = '.' then '·' else c) ≠ l := by
  intro l
  induction l with
  | nil => intro h; cases h
  | cons c l ih =>
    intro hl he
    rw [List.map_cons] at he
    injection he with h1 h2
    rcases List.mem_cons.mp hl with rfl | hl'
    · simp at h1
    · exact ih hl' h2

theorem sanitize_ne_of_dot {s : String} (h : '.' ∈ s.data) :
    sanitize s ≠ s := by
  intro he
  have hd : s.data.map (fun c => if c = '.' then '·' else c) = s.data := by
    have h' := congrArg String.data he
    simpa [sanitize] using h'
  exact map_subst_ne_of_dot s.data h hd

theorem mem_killSession {t : Tmux} {s : String} {e : TmuxSession} :
    e ∈ (killSession t s).sessions ↔ e ∈ t.sessions ∧ e.name ≠ s := by
  simp [killSession, List.mem_filter]

theorem killFold_sessions_mem (cfg : List String) :
    ∀ (L : List String) (t : Tmux) (e : TmuxSession),
      e ∈ (L.foldl (fun acc s => if s ∈ cfg then acc else killSession acc s)
        t).sessions ↔
      e ∈ t.sessions ∧ (e.name ∈ cfg ∨ e.name ∉ L) := by
  intro L
  induction L with
  | nil => intro t e; simp
  | cons s L ih =>
    intro t e
    simp only [List.foldl_cons]
    by_cases hs : s ∈ cfg
    · rw [if_pos hs, ih]
      have hns : e.name ∉ cfg → e.name ≠ s := fun hn he => hn (he ▸ hs)
      constructor
      · rintro ⟨he, hc | hL⟩
        · exact ⟨he, Or.inl hc⟩
        · by_cases hc : e.name ∈ cfg
          · exact ⟨he, Or.inl hc⟩
          · refine ⟨he, Or.inr ?_⟩
            simp only [List.mem_cons, not_or]
            exact ⟨hns hc, hL⟩
      · rintro ⟨he, hc | hL⟩
        · exact ⟨he, Or.inl hc⟩
        · simp only [List.mem_cons, not_or] at hL
          exact ⟨he, Or.inr hL.2⟩
    · rw [if_neg hs, ih]
      simp only [mem_killSession]
      constructor
      · rintro ⟨⟨he, hne⟩, hc | hL⟩
        · exact ⟨he, Or.inl hc⟩
        · refine ⟨he, Or.inr ?_⟩
          simp only [List.mem_cons, not_or]
          exact ⟨hne, hL⟩
      · rintro ⟨he, hc | hL⟩
        · exact ⟨⟨he, fun h => hs (h ▸ hc)⟩, Or.inl hc⟩
        · simp only [List.mem_cons, not_or] at hL
          exact ⟨⟨he, hL.1⟩, Or.inr hL.2⟩

theorem mem_killPhase_sessions {t : Tmux} {cfg : List String}
    {e : TmuxSession} :
    e ∈ (killPhase t cfg).sessions ↔ e ∈ t.sessions ∧ e.name ∈ cfg := by
  rw [killPhase, killFold_sessions_mem]
  constructor
  · rintro ⟨he, hc | hL⟩
    · exact ⟨he, hc⟩
    · exact absurd (List.mem_map_of_mem (fun x => x.name) he) hL
  · rintro ⟨he, hc⟩
    exact ⟨he, Or.inl hc⟩

theorem mem_names_killPhase {t : Tmux} {cfg : List String} {n : String} :
    n ∈ names (killPhase t cfg) ↔ n ∈ names t ∧ n ∈ cfg := by
  simp only [names, List.mem_map]
  constructor
  · rintro ⟨e, he, rfl⟩
    rcases mem_killPhase_sessions.mp he with ⟨he', hc⟩
    exact ⟨⟨e, he', rfl⟩, hc⟩
  · rintro ⟨⟨e, he, rfl⟩, hc⟩
    exact ⟨e, mem_killPhase_sessions.mpr ⟨he, hc⟩, rfl⟩

theorem mem_names_createPhase (cfg : List String) :
    ∀ (t : Tmux) (n : String),
      n ∈ names (createPhase t cfg) ↔
        n ∈ names t ∨ n ∈ cfg.map sanitize := by
  induction cfg with
  | nil => intro t n; simp [createPhase]
  | cons s cfg ih =>
    intro t n
    simp only [createPhase, List.foldl_cons] at ih ⊢
    by_cases h : hasSession t s
    · rw [if_pos h, ih]
      have hm : sanitize s ∈ names t := by
        simpa [hasSession] using h
      simp only [List.map_cons, List.mem_cons]
      constructor
      · rintro (ht | hc)
        · exact Or.inl ht
        · exact Or.inr (Or.inr hc)
      · rintro (ht | rfl | hc)
        · exact Or.inl ht
        · exact Or.inl hm
        · exact Or.inr hc
    · rw [if_neg h, ih]
      simp [names_newSession, List.mem_append, or_assoc]

theorem killPhase_foreground (t : Tmux) (cfg : List String) :
    (killPhase t cfg).foreground = t.foreground := by
  rw [killPhase]
  generalize ls t = L
  induction L generalizing t with
  | nil => rfl
  | cons s L ih =>
    simp only [List.foldl_cons]
    split <;> [exact ih t; exact ih _]

theorem createPhase_foreground (cfg : List String) :
    ∀ t : Tmux, (createPhase t cfg).foreground = t.foreground := by
  induction cfg with
  | nil => intro t; rfl
  | cons s cfg ih =>
    intro t
    simp only [createPhase, List.foldl_cons] at ih ⊢
    split <;> [exact ih t; exact ih _]

/-! ### Claim theorems -/

/-- C1 (counterexample): on registry `["/a","/b","/c"]`, `next` without
`--show` does not activate `"/a"` and does not persist
`["/b","/c","/a"]` as the claim states: it persists `["/c","/a","/b"]`
and puts `"/c"` in the foreground; with `--show` it reports the last
element `"/c"`, not the first. -/
theorem next_claim_scenario_counterexample :
    (nextOp t0 ["/a", "/b", "/c"] false).toOption.map (fun r => r.saved)
        = some (some ["/c", "/a", "/b"]) ∧
    (nextOp t0 ["/a", "/b", "/c"] false).toOption.map
        (fun r => r.tmux.foreground) = some (some "/c") ∧
    some (some ["/c", "/a", "/b"]) ≠ some (some ["/b", "/c", "/a"]) ∧
    some (some "/c") ≠ some (some "/a") ∧
    (nextOp t0 ["/a", "/b", "/c"] true).toOption.map (fun r => r.messages)
        = some ["Next session: /c"] := by
  decide

/-- C1 (amended): for every registry with at least 2 entries,
`Rotate(Next, showOnly=false)` removes the last (most-recent) element,
activates it, and reinserts it at the front; with `showOnly=true` it
reports that last element and persists no change. -/
theorem next_rotates_most_recent_to_front (t : Tmux) (l : List String)
    (a : String) (h : l ≠ []) :
    nextOp t (l ++ [a]) false =
      .ok ⟨set t a, a :: l, some (a :: l), []⟩ ∧
    (set t a).foreground = some (sanitize a) ∧
    nextOp t (l ++ [a]) true = .ok ⟨t, l, none, ["Next session: " ++ a]⟩ := by
  have h0 : 0 < l.length := List.length_pos.mpr h
  have h1 : (l ++ [a]).isEmpty = false := by cases l <;> rfl
  have h2 : ¬(l ++ [a]).length = 1 := by
    simp only [List.length_append, List.length_singleton]
    omega
  refine ⟨?_, set_foreground t a, ?_⟩ <;>
    simp [nextOp, h1, h2, List.getLast?_concat, List.dropLast_concat] <;>
    exact h

/-- Witness for C1's theorem at `t0` and registry `["/a","/b","/c"]`. -/
theorem next_rotates_most_recent_to_front_witness :
    (["/a", "/b"] : List String) ≠ [] ∧
    (nextOp t0 (["/a", "/b"] ++ ["/c"]) false =
        .ok ⟨set t0 "/c", "/c" :: ["/a", "/b"],
          some ("/c" :: ["/a", "/b"]), []⟩ ∧
      (set t0 "/c").foreground = some (sanitize "/c") ∧
      nextOp t0 (["/a", "/b"] ++ ["/c"]) true =
        .ok ⟨t0, ["/a", "/b"], none, ["Next session: " ++ "/c"]⟩) :=
  ⟨by decide, next_rotates_most_recent_to_front t0 ["/a", "/b"] "/c"
    (by decide)⟩

/-- C2 (counterexample): on registry `["/a","/b","/c"]`, `previous`
without `--show` does not activate `"/b"` and does not persist
`["/c","/a","/b"]` as the claim states: it persists `["/b","/c","/a"]`
and puts `"/a"` in the foreground; with `--show` it reports the first
element `"/a"`, not the second-to-last. -/
theorem previous_claim_scenario_counterexample :
    (prevOp t0 ["/a", "/b", "/c"] false).toOption.map (fun r => r.saved)
        = some (some ["/b", "/c", "/a"]) ∧
    (prevOp t0 ["/a", "/b", "/c"] false).toOption.map
        (fun r => r.tmux.foreground) = some (some "/a") ∧
    some (some ["/b", "/c", "/a"]) ≠ some (some ["/c", "/a", "/b"]) ∧
    some (some "/a") ≠ some (some "/b") ∧
    (prevOp t0 ["/a", "/b", "/c"] true).toOption.map (fun r => r.messages)
        = some ["Previous session: /a"] := by
  decide

/-- C2 (amended): for every registry with at least 2 entries,
`Rotate(Previous, showOnly=false)` removes the first (oldest) element,
activates it, and appends it to the end; with `showOnly=true` it reports
that first element and persists no change. -/
theorem previous_rotates_oldest_to_end (t : Tmux) (a : String)
    (l : List String) (h : l ≠ []) :
    prevOp t (a :: l) false =
      .ok ⟨set t a, l ++ [a], some (l ++ [a]), []⟩ ∧
    (set t a).foreground = some (sanitize a) ∧
    prevOp t (a :: l) true =
      .ok ⟨t, l, none, ["Previous session: " ++ a]⟩ := by
  have h0 : 0 < l.length := List.length_pos.mpr h
  have h2 : ¬(a :: l).length = 1 := by
    simp only [List.length_cons]
    omega
  refine ⟨?_, set_foreground t a, ?_⟩ <;> simp [prevOp, h2] <;> exact h

/-- C3 (counterexample): with registry `["/a.b"]` and the matching live
session (created, hence named `/a·b`), `sync_to_tmux` leaves the live name
set `{"/a·b"}`, which is not the registry's id set `{"/a.b"}`: each run
kills and recreates the session instead of recognizing it. -/
theorem sync_to_tmux_dotted_counterexample :
    (syncToTmux ⟨[⟨"/a·b", "/a·b"⟩], false, "", none⟩ ["/a.b"]).toOption.map
        (fun r => names r.tmux) = some ["/a·b"] ∧
    "/a.b" ∉ (["/a·b"] : List String) ∧
    "/a·b" ∉ (["/a.b"] : List String) := by
  decide

/-- C3 (amended): after `Sync(reverse=false)`, provided no registry entry
contains `'.'`, the live session name set equals exactly the registry's id
set (unregistered live sessions killed, dead registry entries created);
the kill phase keeps exactly the live names the registry contains; the
registry's ordered list is returned unchanged and never saved, and no
session is activated (the foreground is untouched). -/
theorem sync_to_tmux_converges_on_dotless (t : Tmux) (cfg : List String)
    (hdot : ∀ s ∈ cfg, sanitize s = s) :
    syncToTmux t cfg =
      .ok ⟨createPhase (killPhase t cfg) cfg, cfg, none, []⟩ ∧
    (∀ n, n ∈ names (createPhase (killPhase t cfg) cfg) ↔ n ∈ cfg) ∧
    (∀ n, n ∈ names (killPhase t cfg) ↔ n ∈ names t ∧ n ∈ cfg) ∧
    (createPhase (killPhase t cfg) cfg).foreground = t.foreground := by
  have hmap : cfg.map sanitize = cfg :=
    (List.map_congr_left hdot).trans (List.map_id' cfg)
  refine ⟨rfl, ?_, fun n => mem_names_killPhase, ?_⟩
  · intro n
    rw [mem_names_createPhase, mem_names_killPhase, hmap]
    constructor
    · rintro (⟨_, hc⟩ | hc) <;> exact hc
    · intro hc
      exact Or.inr hc
  · rw [createPhase_foreground, killPhase_foreground]

/-- Witness for C3's theorem: on registry `["/a"]` with live session
`/a` (and nothing else), the converged live set contains `/a`. -/
theorem sync_to_tmux_converges_on_dotless_witness :
    (∀ s ∈ (["/a"] : List String), sanitize s = s) ∧
    ("/a" ∈ names (createPhase (killPhase t1 ["/a"]) ["/a"]) ↔
      "/a" ∈ (["/a"] : List String)) :=
  ⟨by decide,
   (sync_to_tmux_converges_on_dotless t1 ["/a"] (by decide)).2.1 "/a"⟩

/-- C4 (confirmed): `Sync(reverse=true)` on an empty live session list
fails (the `wrap_err` on `last()`, the spec's `NoSessionsToSync`) and, as
every error aborts before `Config::save`, persists nothing; on a
non-empty live list it errors without saving when the activation's
external calls fail, and otherwise replaces the registry with the live
list in server order, activates its last entry, and persists that list. -/
theorem sync_from_tmux_spec :
    (∀ (t : Tmux) (cfg : List String) (setOk : Bool), ls t = [] →
        syncFromTmux t cfg setOk = .error .failGetLastSession) ∧
    (∀ (t : Tmux) (cfg : List String) (last : String),
        (ls t).getLast? = some last →
        syncFromTmux t cfg false = .error .externalToolFailure ∧
        syncFromTmux t cfg true = .ok ⟨set t last, ls t, some (ls t), []⟩ ∧
        (set t last).foreground = some (sanitize last)) := by
  constructor
  · intro t cfg setOk h
    simp [syncFromTmux, h]
  · intro t cfg last h
    refine ⟨?_, ?_, set_foreground t last⟩ <;> simp [syncFromTmux, h]

/-- Witness for C4's theorem: the empty live list errors, and a singleton
live list `["/a"]` is pulled into the registry with `/a` activated. -/
theorem sync_from_tmux_spec_witness :
    (ls t0 = []) ∧
    syncFromTmux t0 [] true = .error .failGetLastSession ∧
    ((ls t1).getLast? = some "/a") ∧
    (syncFromTmux t1 [] false = .error .externalToolFailure ∧
     syncFromTmux t1 [] true = .ok ⟨set t1 "/a", ls t1, some (ls t1), []⟩ ∧
     (set t1 "/a").foreground = some (sanitize "/a")) :=
  ⟨rfl, sync_from_tmux_spec.1 t0 [] true rfl, by decide,
   sync_from_tmux_spec.2 t1 [] "/a" (by decide)⟩

/-- C10 (counterexample): when the registry tracks both the dotted id
`/a.b` and, as a separate entry, its substituted live name `/a·b`, the
listed live name is recognized as present, so `sync_to_tmux` does *not*
kill that live session (and does not recreate it): the live state is
returned untouched, against the claim's "never recognized / every run
kills". -/
theorem sync_dotted_twin_counterexample :
    sanitize "/a.b" = "/a·b" ∧
    names (killPhase tDot ["/a.b", "/a·b"]) = ["/a·b"] ∧
    (syncToTmux tDot ["/a.b", "/a·b"]).toOption.map
        (fun r => r.tmux.sessions) = some [⟨"/a·b", "/a.b"⟩] := by
  decide

/-- C10 (amended): a session created from an id is registered live under
the sanitized name (every `'.'` replaced by `'·'`) with the original id
kept as working directory, and `ls` reports stored names verbatim; for a
tracked dotted id whose substituted name is *not itself* a registry
entry, the live name is never recognized by the verbatim comparison of
`sync_to_tmux`, so the kill phase removes it and the create phase
recreates it. -/
theorem sync_kills_and_recreates_dotted (t : Tmux) (cfg : List String)
    (id : String) (hid : id ∈ cfg) (hdot : '.' ∈ id.data)
    (htwin : sanitize id ∉ cfg) (hlive : sanitize id ∈ names t) :
    sanitize id ≠ id ∧
    sanitize id ∉ names (killPhase t cfg) ∧
    syncToTmux t cfg =
      .ok ⟨createPhase (killPhase t cfg) cfg, cfg, none, []⟩ ∧
    sanitize id ∈ names (createPhase (killPhase t cfg) cfg) ∧
    (∀ t', hasSession t' id = false →
        names (set t' id) = names t' ++ [sanitize id]) ∧
    (∀ t', (newSession t' id).sessions = t'.sessions ++ [⟨sanitize id, id⟩]) := by
  refine ⟨sanitize_ne_of_dot hdot, ?_, rfl, ?_,
    fun t' h => names_set_of_not_hasSession t' id h, fun t' => rfl⟩
  · rw [mem_names_killPhase]
    rintro ⟨_, hc⟩
    exact htwin hc
  · rw [mem_names_createPhase]
    exact Or.inr (List.mem_map_of_mem sanitize hid)

/-- Witness for C10's theorem on registry `["/a.b"]` with the matching
live session: the kill phase removes live name `/a·b` and the create
phase restores it. -/
theorem sync_kills_and_recreates_dotted_witness :
    ("/a.b" ∈ (["/a.b"] : List String)) ∧ ('.' ∈ "/a.b".data) ∧
    (sanitize "/a.b" ∉ (["/a.b"] : List String)) ∧
    (sanitize "/a.b" ∈ names tDot) ∧
    sanitize "/a.b" ∉ names (killPhase tDot ["/a.b"]) ∧
    sanitize "/a.b" ∈ names (createPhase (killPhase tDot ["/a.b"]) ["/a.b"]) :=
  ⟨by decide, by decide, by decide, by decide,
   (sync_kills_and_recreates_dotted tDot ["/a.b"] "/a.b" (by decide)
     (by decide) (by decide) (by decide)).2.1,
   (sync_kills_and_recreates_dotted tDot ["/a.b"] "/a.b" (by decide)
     (by decide) (by decide) (by decide)).2.2.2.1⟩

/-- C5 (counterexample): `go` and `new` given an id naming a path that
does not exist on the filesystem do not report a plain message with a
successful exit: they `bail!` with a hard error (even when the id is
registered). -/
theorem go_nonexistent_dir_counterexample :
    goOp [] t0 ["/x"] (some "/x") "p" = .error .notADirectory ∧
    newOp [] t0 [] (some "/x") "p" = .error .notADirectory := by
  constructor <;> rfl

/-- C5 (amended): `Go` given an existing path absent from the registry
reports "not found" with no mutation, no save and a successful return,
and `Go`/`New` on an empty history without an id report "no sessions"
the same way; but `Go`/`New` given an id naming a path that does not
exist on the filesystem fail with a hard error (non-zero process exit) —
still with no registry mutation, as the error aborts before any save. -/
theorem user_input_mismatch_spec :
    (∀ (fs : List String) (t : Tmux) (cfg : List String) (id picked : String),
        trimStr id ∈ fs → trimStr id ∉ cfg →
        goOp fs t cfg (some id) picked =
          .ok ⟨t, cfg, none, ["Session not found in the history."]⟩) ∧
    (∀ (fs : List String) (t : Tmux) (cfg : List String) (id picked : String),
        trimStr id ∉ fs →
        goOp fs t cfg (some id) picked = .error .notADirectory) ∧
    (∀ (fs : List String) (t : Tmux) (cfg : List String) (id picked : String),
        trimStr id ∉ fs →
        newOp fs t cfg (some id) picked = .error .notADirectory) ∧
    (∀ (fs : List String) (t : Tmux) (picked : String),
        goOp fs t [] none picked =
          .ok ⟨t, [], none, ["No sessions in the history."]⟩) ∧
    (∀ (fs : List String) (t : Tmux) (picked : String),
        newOp fs t [] none picked =
          .ok ⟨t, [], none, ["No sessions in the history."]⟩) := by
  refine ⟨?_, ?_, ?_, ?_, ?_⟩
  · intro fs t cfg id picked hf hc
    simp [goOp, goRun, hf, hc]
  · intro fs t cfg id picked hf
    simp [goOp, goRun, hf]
  · intro fs t cfg id picked hf
    simp [newOp, newRun, hf]
  · intro fs t picked
    rfl
  · intro fs t picked
    rfl

/-- Witness for C5's theorem: `/x` exists but is not registered, so `go`
reports "not found" without mutating. -/
theorem user_input_mismatch_spec_witness :
    (trimStr "/x" ∈ (["/x"] : List String)) ∧
    (trimStr "/x" ∉ (["/y"] : List String)) ∧
    goOp ["/x"] t0 ["/y"] (some "/x") "p" =
      .ok ⟨t0, ["/y"], none, ["Session not found in the history."]⟩ :=
  ⟨by decide, by decide,
   user_input_mismatch_spec.1 ["/x"] t0 ["/y"] "/x" "p" (by decide)
     (by decide)⟩

/-- C8 (confirmed): `remove` of the wrapper-reported current session
reports "cannot remove", mutates nothing and returns success; for any
other id it drops the id from the registry and saves, and in both cases
the tmux state is returned untouched — `remove` never calls
`kill-session`, so the live session keeps running. -/
theorem remove_current_guard_spec (t : Tmux) (cfg : List String)
    (id : String) :
    (currentSession t = id →
      removeOp t cfg id =
        .ok ⟨t, cfg, none, ["Cannot remove the current session."]⟩) ∧
    (currentSession t ≠ id →
      removeOp t cfg id =
        .ok ⟨t, cfg.filter (fun x => decide (x ≠ id)),
          some (cfg.filter (fun x => decide (x ≠ id))), []⟩) := by
  constructor
  · intro h
    simp [removeOp, h]
  · intro h
    simp [removeOp, h]

/-- Witness for C8's theorem with current session `/c`: removing `/c` is
refused without mutation; removing `/a` drops it and keeps tmux as-is. -/
theorem remove_current_guard_spec_witness :
    (currentSession tCur = "/c") ∧
    removeOp tCur ["/a"] "/c" =
      .ok ⟨tCur, ["/a"], none, ["Cannot remove the current session."]⟩ ∧
    (currentSession tCur ≠ "/a") ∧
    removeOp tCur ["/a"] "/a" =
      .ok ⟨tCur, (["/a"] : List String).filter (fun x => decide (x ≠ "/a")),
        some ((["/a"] : List String).filter (fun x => decide (x ≠ "/a"))),
        []⟩ :=
  ⟨rfl, (remove_current_guard_spec tCur ["/a"] "/c").1 rfl, by decide,
   (remove_current_guard_spec tCur ["/a"] "/a").2 (by decide)⟩

theorem evalAll_ok_of_good (eng : RegexEngine) (fs : List FsNode) :
    ∀ roots : List Directory,
      (∀ d ∈ roots, ∃ p m, d.grep = some p ∧ eng.compile p = some m) →
      ∀ acc, ∃ raw, evalAll eng fs roots acc = .ok raw := by
  intro roots
  induction roots with
  | nil =>
    intro _ acc
    exact ⟨acc, rfl⟩
  | cons d roots ih =>
    intro h acc
    obtain ⟨p, m, hp, hm⟩ := h d (List.mem_cons_self d roots)
    have hd : evalRoot eng fs d =
        .ok ((((walk fs d).filter (fun e => m (renderPath e.path))).filter
          (fun e => e.isDir)).map (fun e => renderPath e.path)) := by
      simp [evalRoot, hp, hm]
    simp only [evalAll, hd]
    exact ih (fun d' hd' => h d' (List.mem_cons_of_mem d hd')) _

theorem evalAll_bad_root (eng : RegexEngine) (fs : List FsNode) :
    ∀ (pre : List Directory) (acc : List String) (d : Directory)
      (post : List Directory) (e : EvalErr),
      (∀ d' ∈ pre, ∃ p m, d'.grep = some p ∧ eng.compile p = some m) →
      evalRoot eng fs d = .error e →
      evalAll eng fs (pre ++ d :: post) acc = .error e := by
  intro pre
  induction pre with
  | nil =>
    intro acc d post e _ hd
    simp [evalAll, hd]
  | cons d0 pre ih =>
    intro acc d post e h hd
    obtain ⟨p, m, hp, hm⟩ := h d0 (List.mem_cons_self d0 pre)
    have hxs : evalRoot eng fs d0 =
        .ok ((((walk fs d0).filter (fun e => m (renderPath e.path))).filter
          (fun e => e.isDir)).map (fun e => renderPath e.path)) := by
      simp [evalRoot, hp, hm]
    simp only [List.cons_append, evalAll, hxs]
    exact ih _ d post e (fun d' hd' => h d' (List.mem_cons_of_mem d0 hd')) hd

/-- C6 (counterexample): a root whose pattern is absent makes `evaluate`
fail (the `unwrap` of `None` panics) instead of defaulting to a
match-everything pattern and succeeding. -/
theorem evaluate_none_pattern_counterexample :
    evaluate trueEngine [] [⟨["p"], 1, 1, none⟩] = .error .panicNoneUnwrap ∧
    (evaluate trueEngine [] [⟨["p"], 1, 1, none⟩]).isOk = false :=
  ⟨rfl, rfl⟩

/-- C6 (amended): `evaluate` succeeds whenever every root's pattern is
present and compiles; it panics (`unwrap` of `None`) at the first root
whose pattern is absent, and fails `InvalidPattern` at the first root
whose present pattern does not compile — the default `.*` exists only as
a CLI default at root-addition time, not inside `evaluate`. -/
theorem evaluate_pattern_totality :
    (∀ (eng : RegexEngine) (fs : List FsNode) (roots : List Directory),
        (∀ d ∈ roots, ∃ p m, d.grep = some p ∧ eng.compile p = some m) →
        ∃ out, evaluate eng fs roots = .ok out) ∧
    (∀ (eng : RegexEngine) (fs : List FsNode) (pre : List Directory)
        (d : Directory) (post : List Directory),
        (∀ d' ∈ pre, ∃ p m, d'.grep = some p ∧ eng.compile p = some m) →
        d.grep = none →
        evaluate eng fs (pre ++ d :: post) = .error .panicNoneUnwrap) ∧
    (∀ (eng : RegexEngine) (fs : List FsNode) (pre : List Directory)
        (d : Directory) (post : List Directory) (p : String),
        (∀ d' ∈ pre, ∃ p' m, d'.grep = some p' ∧ eng.compile p' = some m) →
        d.grep = some p → eng.compile p = none →
        evaluate eng fs (pre ++ d :: post) = .error (.invalidPattern p)) := by
  refine ⟨?_, ?_, ?_⟩
  · intro eng fs roots h
    obtain ⟨raw, hr⟩ := evalAll_ok_of_good eng fs roots h []
    refine ⟨List.insertionSort (· ≤ ·) raw.dedup, ?_⟩
    unfold evaluate
    rw [hr]
  · intro eng fs pre d post h hg
    have hd : evalRoot eng fs d = .error .panicNoneUnwrap := by
      simp [evalRoot, hg]
    simp [evaluate, evalAll_bad_root eng fs pre [] d post _ h hd]
  · intro eng fs pre d post p h hg hc
    have hd : evalRoot eng fs d = .error (.invalidPattern p) := by
      simp [evalRoot, hg, hc]
    simp [evaluate, evalAll_bad_root eng fs pre [] d post _ h hd]

/-- Witness for C6's theorem: with a present, compiling pattern on every
root, `evaluate` succeeds. -/
theorem evaluate_pattern_totality_witness :
    (∀ d ∈ ([⟨["p"], 1, 1, some ".*"⟩] : List Directory),
        ∃ p m, d.grep = some p ∧ trueEngine.compile p = some m) ∧
    ∃ out, evaluate trueEngine [] [⟨["p"], 1, 1, some ".*"⟩] = .ok out :=
  have h : ∀ d ∈ ([⟨["p"], 1, 1, some ".*"⟩] : List Directory),
      ∃ p m, d.grep = some p ∧ trueEngine.compile p = some m := by
    intro d hd
    rw [List.mem_singleton] at hd
    subst hd
    exact ⟨".*", fun _ => true, rfl, rfl⟩
  ⟨h, evaluate_pattern_totality.1 trueEngine [] _ h⟩

theorem evalRoot_ok_spec {eng : RegexEngine} {fs : List FsNode}
    {d : Directory} {xs : List String} (h : evalRoot eng fs d = .ok xs) :
    ∃ p m, d.grep = some p ∧ eng.compile p = some m ∧
      xs = (((walk fs d).filter (fun e => m (renderPath e.path))).filter
        (fun e => e.isDir)).map (fun e => renderPath e.path) := by
  rcases hg : d.grep with _ | p
  · rw [evalRoot, hg] at h
    simp at h
  · rcases hc : eng.compile p with _ | m
    · rw [evalRoot, hg] at h
      simp [hc] at h
    · rw [evalRoot, hg] at h
      simp only [hc] at h
      refine ⟨p, m, rfl, hc, ?_⟩
      simpa using h.symm

theorem evalAll_ok_mem (eng : RegexEngine) (fs : List FsNode) :
    ∀ (roots : List Directory) (acc raw : List String),
      evalAll eng fs roots acc = .ok raw →
      ∀ s ∈ raw, s ∈ acc ∨
        ∃ d ∈ roots, ∃ xs, evalRoot eng fs d = .ok xs ∧ s ∈ xs := by
  intro roots
  induction roots with
  | nil =>
    intro acc raw h s hs
    simp only [evalAll] at h
    cases h
    exact Or.inl hs
  | cons d roots ih =>
    intro acc raw h s hs
    simp only [evalAll] at h
    rcases hd : evalRoot eng fs d with e | xs
    · rw [hd] at h
      simp at h
    · rw [hd] at h
      rcases ih _ _ h s hs with hmem | ⟨d', hd', xs', hx', hs'⟩
      · rcases List.mem_append.mp hmem with h1 | h2
        · exact Or.inl h1
        · exact Or.inr ⟨d, List.mem_cons_self d roots, xs, hd, h2⟩
      · exact Or.inr ⟨d', List.mem_cons_of_mem d hd', xs', hx', hs'⟩

theorem mem_evalRoot_out {eng : RegexEngine} {fs : List FsNode}
    {d : Directory} {xs : List String} {s : String}
    (hok : evalRoot eng fs d = .ok xs) (hs : s ∈ xs) :
    ∃ e, e ∈ fs ∧ e.isDir = true ∧ s = renderPath e.path ∧
      underRoot d.path e.path = true ∧
      d.mindepth ≤ depthFrom d.path e.path ∧
      depthFrom d.path e.path ≤ d.maxdepth ∧
      ∃ p m, d.grep = some p ∧ eng.compile p = some m ∧
        m (renderPath e.path) = true := by
  obtain ⟨p, m, hp, hc, rfl⟩ := evalRoot_ok_spec hok
  simp only [walk, List.mem_map, List.mem_filter, Bool.and_eq_true,
    decide_eq_true_eq] at hs
  obtain ⟨e, ⟨⟨⟨hefs, hur, hmin⟩, hmax⟩, hdir⟩, rfl⟩ := hs
  exact ⟨e, hefs, hdir, rfl, hur.1, hur.2, hmin, p, m, hp, hc, hmax⟩

/-- C7 (confirmed): whenever `evaluate` succeeds, every output element is
a directory entry of the snapshot whose depth below some root lies in
`[mindepth, maxdepth]` and whose full path matches that root's compiled
pattern; the output is sorted ascending and duplicate-free, and a second
call on the same snapshot returns the identical sequence. -/
theorem evaluate_output_spec (eng : RegexEngine) (fs : List FsNode)
    (roots : List Directory) (out : List String)
    (h : evaluate eng fs roots = .ok out) :
    List.Sorted (· ≤ ·) out ∧ out.Nodup ∧
    (∀ s ∈ out, ∃ e, e ∈ fs ∧ e.isDir = true ∧ s = renderPath e.path ∧
      ∃ d ∈ roots, underRoot d.path e.path = true ∧
        d.mindepth ≤ depthFrom d.path e.path ∧
        depthFrom d.path e.path ≤ d.maxdepth ∧
        ∃ p m, d.grep = some p ∧ eng.compile p = some m ∧
          m (renderPath e.path) = true) ∧
    (∀ out', evaluate eng fs roots = .ok out' → out' = out) := by
  rcases hall : evalAll eng fs roots [] with e | raw
  · rw [evaluate, hall] at h
    simp at h
  · rw [evaluate, hall] at h
    simp only [Except.ok.injEq] at h
    subst h
    have hperm : List.Perm (List.insertionSort (· ≤ ·) raw.dedup)
        raw.dedup := List.perm_insertionSort _ _
    refine ⟨List.sorted_insertionSort _ _,
      hperm.nodup_iff.mpr (List.nodup_dedup raw), ?_, ?_⟩
    · intro s hs
      have hraw : s ∈ raw := List.mem_dedup.mp (hperm.mem_iff.mp hs)
      rcases evalAll_ok_mem eng fs roots [] raw hall s hraw with h0 | hex
      · cases h0
      · obtain ⟨d, hd, xs, hx, hsx⟩ := hex
        obtain ⟨e, hefs, hdir, rfl, hur, hmin, hmax, p, m, hp, hc, hm⟩ :=
          mem_evalRoot_out hx hsx
        exact ⟨e, hefs, hdir, rfl, d, hd, hur, hmin, hmax, p, m, hp, hc, hm⟩
    · intro out' h'
      rw [evaluate, hall] at h'
      simpa using h'.symm

/-- Witness for C7's theorem on the spec's scenario: only `/proj/x`
survives (directory, depth 1, pattern match), sorted and deduplicated. -/
theorem evaluate_output_spec_witness :
    (evaluate trueEngine fsEx rootsEx = .ok ["/proj/x"]) ∧
    List.Sorted (· ≤ ·) (["/proj/x"] : List String) ∧
    (["/proj/x"] : List String).Nodup :=
  ⟨rfl, (evaluate_output_spec trueEngine fsEx rootsEx ["/proj/x"] rfl).1,
   (evaluate_output_spec trueEngine fsEx rootsEx ["/proj/x"] rfl).2.1⟩

theorem goRun_ok_shape {fs : List String} {t : Tmux} {cfg : List String}
    {s0 : String} {r : OpResult} (h : goRun fs t cfg s0 = .ok r) :
    (r.sessions = cfg ∧ r.saved = none) ∨
    (r.sessions = cfg.filter (fun x => decide (x ≠ trimStr s0)) ++
        [trimStr s0] ∧ r.saved = some r.sessions) := by
  simp only [goRun] at h
  split at h
  · split at h
    · cases h
      exact Or.inr ⟨rfl, rfl⟩
    · cases h
      exact Or.inl ⟨rfl, rfl⟩
  · exact Except.noConfusion h

theorem newRun_ok_shape {fs : List String} {t : Tmux} {cfg : List String}
    {s0 : String} {r : OpResult} (h : newRun fs t cfg s0 = .ok r) :
    r.sessions = cfg.filter (fun x => decide (x ≠ trimStr s0)) ++
      [trimStr s0] ∧ r.saved = some r.sessions := by
  simp only [newRun] at h
  split at h
  · cases h
    exact ⟨rfl, rfl⟩
  · exact Except.noConfusion h

theorem addOp_ok_shape {t : Tmux} {cfg : List String} {s : String}
    {b : Bool} {r : OpResult} (h : addOp t cfg s b = .ok r) :
    (r.sessions = cfg ∧ r.saved = none) ∨
    (s ∉ cfg ∧ r.sessions = cfg ++ [s] ∧ r.saved = some (cfg ++ [s])) := by
  simp only [addOp] at h
  split at h
  · cases h
    exact Or.inl ⟨rfl, rfl⟩
  · rename_i hs
    cases h
    exact Or.inr ⟨hs, rfl, rfl⟩

theorem removeOp_ok_shape {t : Tmux} {cfg : List String} {s : String}
    {r : OpResult} (h : removeOp t cfg s = .ok r) :
    (r.sessions = cfg ∧ r.saved = none) ∨
    (r.sessions = cfg.filter (fun x => decide (x ≠ s)) ∧
      r.saved = some r.sessions) := by
  simp only [removeOp] at h
  split at h
  · cases h
    exact Or.inl ⟨rfl, rfl⟩
  · cases h
    exact Or.inr ⟨rfl, rfl⟩

theorem nextOp_ok_shape {t : Tmux} {cfg : List String} {showOnly : Bool}
    {r : OpResult} (h : nextOp t cfg showOnly = .ok r) :
    (r.sessions = cfg ∧ r.saved = none) ∨
    (r.sessions = cfg.dropLast ∧ r.saved = none) ∨
    (r.sessions = cfg ∧ r.saved = some cfg) ∨
    (∃ a, cfg.getLast? = some a ∧ r.sessions = a :: cfg.dropLast ∧
      r.saved = some (a :: cfg.dropLast)) := by
  simp only [nextOp] at h
  split at h
  · cases h
    exact Or.inl ⟨rfl, rfl⟩
  · split at h
    · cases h
      exact Or.inl ⟨rfl, rfl⟩
    · split at h
      · rename_i session heq
        split at h
        · cases h
          exact Or.inr (Or.inl ⟨rfl, rfl⟩)
        · cases h
          exact Or.inr (Or.inr (Or.inr ⟨session, heq, rfl, rfl⟩))
      · cases h
        exact Or.inr (Or.inr (Or.inl ⟨rfl, rfl⟩))

theorem prevOp_ok_shape {t : Tmux} {cfg : List String} {showOnly : Bool}
    {r : OpResult} (h : prevOp t cfg showOnly = .ok r) :
    (r.sessions = cfg ∧ r.saved = none) ∨
    (∃ a l, cfg = a :: l ∧ r.sessions = l ∧ r.saved = none) ∨
    (∃ a l, cfg = a :: l ∧ r.sessions = l ++ [a] ∧
      r.saved = some (l ++ [a])) := by
  simp only [prevOp] at h
  split at h
  · cases h
    exact Or.inl ⟨rfl, rfl⟩
  · split at h
    · cases h
      exact Or.inl ⟨rfl, rfl⟩
    · split at h
      · cases h
        exact Or.inl ⟨rfl, rfl⟩
      · split at h
        · cases h
          exact Or.inr (Or.inl ⟨_, _, rfl, rfl, rfl⟩)
        · cases h
          exact Or.inr (Or.inr ⟨_, _, rfl, rfl, rfl⟩)

theorem nodup_filter_append (cfg : List String) (s : String)
    (h : cfg.Nodup) :
    (cfg.filter (fun x => decide (x ≠ s)) ++ [s]).Nodup := by
  refine List.Nodup.append (h.filter _) (List.nodup_singleton s) ?_
  intro a ha hb
  rw [List.mem_singleton] at hb
  subst hb
  have hne := List.of_mem_filter ha
  simp at hne

theorem count_filter_append (cfg : List String) (s : String) :
    (cfg.filter (fun x => decide (x ≠ s)) ++ [s]).count s = 1 := by
  rw [List.count_append]
  have h0 : (cfg.filter (fun x => decide (x ≠ s))).count s = 0 := by
    rw [List.count_eq_zero]
    intro hmem
    have hne := List.of_mem_filter hmem
    simp at hne
  rw [h0]
  simp

theorem goRun_nodup {fs : List String} {t : Tmux} {cfg : List String}
    {s0 : String} {r : OpResult} (hn : cfg.Nodup)
    (h : goRun fs t cfg s0 = .ok r) :
    r.sessions.Nodup ∧ (r.saved = none ∨ r.saved = some r.sessions) := by
  rcases goRun_ok_shape h with ⟨h1, h2⟩ | ⟨h1, h2⟩
  · rw [h1]
    exact ⟨hn, Or.inl h2⟩
  · refine ⟨?_, Or.inr h2⟩
    rw [h1]
    exact nodup_filter_append cfg (trimStr s0) hn

theorem newRun_nodup {fs : List String} {t : Tmux} {cfg : List String}
    {s0 : String} {r : OpResult} (hn : cfg.Nodup)
    (h : newRun fs t cfg s0 = .ok r) :
    r.sessions.Nodup ∧ (r.saved = none ∨ r.saved = some r.sessions) := by
  obtain ⟨h1, h2⟩ := newRun_ok_shape h
  refine ⟨?_, Or.inr h2⟩
  rw [h1]
  exact nodup_filter_append cfg (trimStr s0) hn

/-- C9 (confirmed): starting from a duplicate-free registry, every
successful `go`, `new`, `add`, `remove`, `next` and `previous` leaves the
in-memory registry duplicate-free (and the persisted list, when one is
saved, is that registry); and whenever `go` or `new` activates (saves), the
trimmed id occurs exactly once and is the last (most-recent) element. -/
theorem registry_nodup_invariant :
    ∀ cfg : List String, cfg.Nodup →
      (∀ (fs : List String) (t : Tmux) (arg : Option String)
          (picked : String) (r : OpResult),
          goOp fs t cfg arg picked = .ok r →
          r.sessions.Nodup ∧ (r.saved = none ∨ r.saved = some r.sessions)) ∧
      (∀ (fs : List String) (t : Tmux) (arg : Option String)
          (picked : String) (r : OpResult),
          newOp fs t cfg arg picked = .ok r →
          r.sessions.Nodup ∧ (r.saved = none ∨ r.saved = some r.sessions)) ∧
      (∀ (t : Tmux) (s : String) (b : Bool) (r : OpResult),
          addOp t cfg s b = .ok r →
          r.sessions.Nodup ∧ (r.saved = none ∨ r.saved = some r.sessions)) ∧
      (∀ (t : Tmux) (s : String) (r : OpResult),
          removeOp t cfg s = .ok r →
          r.sessions.Nodup ∧ (r.saved = none ∨ r.saved = some r.sessions)) ∧
      (∀ (t : Tmux) (b : Bool) (r : OpResult),
          nextOp t cfg b = .ok r →
          r.sessions.Nodup ∧ (r.saved = none ∨ r.saved = some r.sessions)) ∧
      (∀ (t : Tmux) (b : Bool) (r : OpResult),
          prevOp t cfg b = .ok r →
          r.sessions.Nodup ∧ (r.saved = none ∨ r.saved = some r.sessions)) ∧
      (∀ (fs : List String) (t : Tmux) (id picked : String) (r : OpResult),
          goOp fs t cfg (some id) picked = .ok r → r.saved ≠ none →
          r.sessions.count (trimStr id) = 1 ∧
          r.sessions.getLast? = some (trimStr id)) ∧
      (∀ (fs : List String) (t : Tmux) (id picked : String) (r : OpResult),
          newOp fs t cfg (some id) picked = .ok r → r.saved ≠ none →
          r.sessions.count (trimStr id) = 1 ∧
          r.sessions.getLast? = some (trimStr id)) := by
  intro cfg hn
  refine ⟨?_, ?_, ?_, ?_, ?_, ?_, ?_, ?_⟩
  · intro fs t arg picked r h
    cases arg with
    | none =>
      simp only [goOp] at h
      split at h
      · cases h
        exact ⟨hn, Or.inl rfl⟩
      · exact goRun_nodup hn h
    | some s =>
      exact goRun_nodup hn h
  · intro fs t arg picked r h
    cases arg with
    | none =>
      simp only [newOp] at h
      split at h
      · cases h
        exact ⟨hn, Or.inl rfl⟩
      · exact newRun_nodup hn h
    | some s =>
      exact newRun_nodup hn h
  · intro t s b r h
    rcases addOp_ok_shape h with ⟨h1, h2⟩ | ⟨hs, h1, h2⟩
    · rw [h1]
      exact ⟨hn, Or.inl h2⟩
    · refine ⟨?_, ?_⟩
      · rw [h1]
        refine List.Nodup.append hn (List.nodup_singleton s) ?_
        intro a ha hb
        rw [List.mem_singleton] at hb
        subst hb
        exact hs ha
      · rw [h2, h1]
        exact Or.inr rfl
  · intro t s r h
    rcases removeOp_ok_shape h with ⟨h1, h2⟩ | ⟨h1, h2⟩
    · rw [h1]
      exact ⟨hn, Or.inl h2⟩
    · refine ⟨?_, Or.inr h2⟩
      rw [h1]
      exact hn.filter _
  · intro t b r h
    rcases nextOp_ok_shape h with ⟨h1, h2⟩ | ⟨h1, h2⟩ | ⟨h1, h2⟩ |
      ⟨a, ha, h1, h2⟩
    · rw [h1]
      exact ⟨hn, Or.inl h2⟩
    · refine ⟨?_, Or.inl h2⟩
      rw [h1]
      exact hn.sublist (List.dropLast_sublist cfg)
    · refine ⟨?_, ?_⟩
      · rw [h1]
        exact hn
      · rw [h2, h1]
        exact Or.inr rfl
    · rcases List.eq_nil_or_concat cfg with rfl | ⟨L, b', rfl⟩
      · exact Option.noConfusion ha
      · simp only [List.concat_eq_append] at ha h1 h2 hn
        rw [List.getLast?_concat] at ha
        cases ha
        rw [List.dropLast_concat] at h1 h2
        refine ⟨?_, ?_⟩
        · rw [h1]
          exact (List.perm_append_singleton a L).nodup hn
        · rw [h2, h1]
          exact Or.inr rfl
  · intro t b r h
    rcases prevOp_ok_shape h with ⟨h1, h2⟩ | ⟨a, l, rfl, h1, h2⟩ |
      ⟨a, l, rfl, h1, h2⟩
    · rw [h1]
      exact ⟨hn, Or.inl h2⟩
    · refine ⟨?_, Or.inl h2⟩
      rw [h1]
      exact hn.of_cons
    · refine ⟨?_, ?_⟩
      · rw [h1]
        exact ((List.perm_append_singleton a l).symm).nodup hn
      · rw [h2, h1]
        exact Or.inr rfl
  · intro fs t id picked r h hsaved
    simp only [goOp] at h
    rcases goRun_ok_shape h with ⟨h1, h2⟩ | ⟨h1, h2⟩
    · exact absurd h2 hsaved
    · rw [h1]
      exact ⟨count_filter_append cfg (trimStr id), List.getLast?_concat _⟩
  · intro fs t id picked r h hsaved
    simp only [newOp] at h
    obtain ⟨h1, h2⟩ := newRun_ok_shape h
    rw [h1]
    exact ⟨count_filter_append cfg (trimStr id), List.getLast?_concat _⟩

/-- Witness for C9's theorem: `go` of `/x` on nodup registry
`["/x","/y"]` yields `["/y","/x"]`, in which `/x` occurs once, last. -/
theorem registry_nodup_invariant_witness :
    (["/x", "/y"] : List String).Nodup ∧
    ((["/y", "/x"] : List String).count (trimStr "/x") = 1 ∧
      (["/y", "/x"] : List String).getLast? = some (trimStr "/x")) :=
  ⟨by decide,
   (registry_nodup_invariant ["/x", "/y"] (by decide)).2.2.2.2.2.2.1
     ["/x"] t0 "/x" "p" ⟨set t0 "/x", ["/y", "/x"], some ["/y", "/x"], []⟩
     rfl (by decide)⟩

/-- Witness for C2's theorem at `t0` and registry `["/a","/b","/c"]`. -/
theorem previous_rotates_oldest_to_end_witness :
    (["/b", "/c"] : List String) ≠ [] ∧
    (prevOp t0 ("/a" :: ["/b", "/c"]) false =
        .ok ⟨set t0 "/a", ["/b", "/c"] ++ ["/a"],
          some (["/b", "/c"] ++ ["/a"]), []⟩ ∧
      (set t0 "/a").foreground = some (sanitize "/a") ∧
      prevOp t0 ("/a" :: ["/b", "/c"]) true =
        .ok ⟨t0, ["/b", "/c"], none, ["Previous session: " ++ "/a"]⟩) :=
  ⟨by decide, previous_rotates_oldest_to_end t0 "/a" ["/b", "/c"]
    (by decide)⟩

end Sessionizer
